import Mathlib

/-!
Verification of the error/signal registration-and-dispatch component
(`FunctionsFrameworkErrorHandler` in `src/error.ts`).

The embedding models the component as a pure trace semantics:
  * a custom-handler registration is a pair of the condition string and an
    opaque numeric identifier for the handler function (the embedding tracks
    when, and with which argument, each handler function is called);
  * firing a process event produces a list of observable events `Ev`,
    translated listener by listener from the bodies attached in `register`.
Asynchronous structure is flattened to the order the source awaits it in:
the `await Promise.all` point is the explicit `Ev.awaitAll` event, after
which the finalize action of the listener runs.
-/

namespace FunctionsFramework

/-- A registered custom error handler: the condition string paired with an
opaque identifier standing for the handler function. -/
abbrev HandlerReg := String × Nat

/-- Observable events of one reaction chain. `sendCrash` records the four
pieces of data `sendCrashResponse` is called with: the error message, whether
the latest response handle is passed, the exit code bound into the termination
callback (`none` when no callback is passed), and the `silent` flag (`none`
when not passed). `exitProc` records a direct `process.exit` call, with
`none` for a call without an explicit code. -/
inductive Ev : Type
  | log (msg : String)
  | invoke (handler : Nat) (arg : String)
  | awaitAll
  | sendCrash (errMsg : String) (resLatest : Bool) (callbackCode : Option Nat) (silent : Option Bool)
  | serverClose
  | closeCallback
  | exitProc (code : Option Nat)
  deriving DecidableEq, Repr

/-- Exit code bound by `killInstance = process.exit.bind(process, 16)`. -/
def killInstanceCode : Nat := 16

/-- Exit codes the Node.js runtime assigns internal meaning to, from the
exit-code table of the Node.js documentation cited by the source comment
above `killInstance` (codes 1-10, 12, 13, 14; 11 is unused). -/
def nodeReservedExitCodes : List Nat := [1, 2, 3, 4, 5, 6, 7, 8, 9, 10, 12, 13, 14]

/-- `callCustomErrorHandler(signal)`: map over every registration and, when the
registration's condition string equals the firing signal, call the handler
function with the signal. Non-matching registrations contribute nothing. -/
def callCustomErrorHandler (customeErrorHandlers : List HandlerReg) (signal : String) : List Ev :=
  (customeErrorHandlers.map (fun h => if signal = h.1 then [Ev.invoke h.2 signal] else [])).flatten

/-- `on(error, listener)`: push the pair onto the registration list. -/
def «on» (customeErrorHandlers : List HandlerReg) (error : String) (listener : Nat) : List HandlerReg :=
  customeErrorHandlers ++ [(error, listener)]

/-- Body of the `uncaughtException` listener: log, dispatch and await custom
handlers, then send the crash response with the caught error, the latest
response handle and the `killInstance` callback. -/
def uncaughtExceptionTrace (hs : List HandlerReg) (errMsg : String) : List Ev :=
  Ev.log "Uncaught exception" :: callCustomErrorHandler hs "uncaughtException"
    ++ [Ev.awaitAll, Ev.sendCrash errMsg true (some killInstanceCode) none]

/-- Body of the `unhandledRejection` listener. -/
def unhandledRejectionTrace (hs : List HandlerReg) (errMsg : String) : List Ev :=
  Ev.log "Unhandled rejection" :: callCustomErrorHandler hs "unhandledRejection"
    ++ [Ev.awaitAll, Ev.sendCrash errMsg true (some killInstanceCode) none]

/-- Body of the `exit` listener: dispatch and await custom handlers, then send
the crash response with a synthesized error, no callback, and
`silent: code === 0`. -/
def exitTrace (hs : List HandlerReg) (code : Int) : List Ev :=
  callCustomErrorHandler hs "exit"
    ++ [Ev.awaitAll,
        Ev.sendCrash ("Process exited with code " ++ toString code) true none
          (some (decide (code = 0)))]

/-- Body of a signal listener (the closure attached for `signal` in the
`forEach` over SIGINT and SIGTERM): log, dispatch and await custom handlers,
close the server, and call `process.exit()` with no code from the close
completion callback. -/
def signalTrace (hs : List HandlerReg) (signal : String) : List Ev :=
  Ev.log ("Received " ++ signal) :: callCustomErrorHandler hs signal
    ++ [Ev.awaitAll, Ev.serverClose, Ev.closeCallback, Ev.exitProc none]

/-- The kind of listener closure `register` attaches; a signal listener
captures its signal string. -/
inductive ListenerK : Type
  | uncaught
  | unhandled
  | exitL
  | sig (signal : String)
  deriving DecidableEq, Repr

/-- The five `process.on` attachments one `register(server)` call makes, in
source order. -/
def registerListeners : List (String × ListenerK) :=
  [("uncaughtException", ListenerK.uncaught),
   ("unhandledRejection", ListenerK.unhandled),
   ("exit", ListenerK.exitL),
   ("SIGINT", ListenerK.sig "SIGINT"),
   ("SIGTERM", ListenerK.sig "SIGTERM")]

/-- `register(server)` appends its five listeners to whatever listeners the
process already has; nothing guards against being called again. -/
def register (ls : List (String × ListenerK)) : List (String × ListenerK) :=
  ls ++ registerListeners

/-- The process listener list after `n` calls to `register`. -/
def registerN : Nat → List (String × ListenerK)
  | 0 => []
  | n + 1 => register (registerN n)

/-- A process-level event that can fire: the two fault events carry the error,
the exit event carries the exit code, a signal event carries the signal name. -/
inductive ProcEvent : Type
  | uncaughtException (errMsg : String)
  | unhandledRejection (errMsg : String)
  | exitEv (code : Int)
  | signalEv (name : String)

/-- The event name a `ProcEvent` is delivered under. -/
def eventKey : ProcEvent → String
  | ProcEvent.uncaughtException _ => "uncaughtException"
  | ProcEvent.unhandledRejection _ => "unhandledRejection"
  | ProcEvent.exitEv _ => "exit"
  | ProcEvent.signalEv s => s

/-- Run one attached listener on a delivered event. A listener only ever
receives the event it was attached for; mismatched combinations (unreachable
through `fire`) produce no events. -/
def runListener (hs : List HandlerReg) : ListenerK → ProcEvent → List Ev
  | ListenerK.uncaught, ProcEvent.uncaughtException m => uncaughtExceptionTrace hs m
  | ListenerK.unhandled, ProcEvent.unhandledRejection m => unhandledRejectionTrace hs m
  | ListenerK.exitL, ProcEvent.exitEv c => exitTrace hs c
  | ListenerK.sig s, ProcEvent.signalEv _ => signalTrace hs s
  | _, _ => []

/-- Deliver a process event: every listener attached under the event's name
runs, in attachment order. -/
def fire (ls : List (String × ListenerK)) (hs : List HandlerReg) (e : ProcEvent) : List Ev :=
  ((ls.filter (fun p => decide (p.1 = eventKey e))).map (fun p => runListener hs p.2 e)).flatten

/-- The five condition strings the component recognizes. -/
def recognizedConditions : List String :=
  ["uncaughtException", "unhandledRejection", "exit", "SIGINT", "SIGTERM"]

/-- Event classifiers over `Ev`. -/
def isLog : Ev → Bool
  | Ev.log _ => true
  | _ => false

def isInvoke : Ev → Bool
  | Ev.invoke _ _ => true
  | _ => false

def isAwait : Ev → Bool
  | Ev.awaitAll => true
  | _ => false

def isSendCrash : Ev → Bool
  | Ev.sendCrash _ _ _ _ => true
  | _ => false

def isCloseCb : Ev → Bool
  | Ev.closeCallback => true
  | _ => false

def isServerClose : Ev → Bool
  | Ev.serverClose => true
  | _ => false

def isExitP : Ev → Bool
  | Ev.exitProc _ => true
  | _ => false

/-- Finalize-action events: the crash response and the close/exit sequence. -/
def isFinalize : Ev → Bool
  | Ev.sendCrash _ _ _ _ => true
  | Ev.serverClose => true
  | Ev.closeCallback => true
  | Ev.exitProc _ => true
  | _ => false

/-- The invocation events of handler `hid` inside a trace. -/
def invocationsOf (t : List Ev) (hid : Nat) : List Ev :=
  t.filter (fun e => match e with
    | Ev.invoke h _ => decide (h = hid)
    | _ => false)

/-- The crash-response calls inside a trace. -/
def crashEvents (t : List Ev) : List Ev := t.filter isSendCrash

/-- The callback exit codes of the crash-response calls inside a trace. -/
def callbackCodes (t : List Ev) : List (Option Nat) :=
  t.filterMap (fun e => match e with
    | Ev.sendCrash _ _ cb _ => some cb
    | _ => none)

end FunctionsFramework

namespace FunctionsFramework

/-! ### Helper lemmas about the dispatch and the traces -/

theorem callCustomErrorHandler_nil (s : String) : callCustomErrorHandler [] s = [] := rfl

theorem callCustomErrorHandler_cons (p : HandlerReg) (hs : List HandlerReg) (s : String) :
    callCustomErrorHandler (p :: hs) s =
      (if s = p.1 then [Ev.invoke p.2 s] else []) ++ callCustomErrorHandler hs s := by
  simp [callCustomErrorHandler]

theorem callCustomErrorHandler_append (a b : List HandlerReg) (s : String) :
    callCustomErrorHandler (a ++ b) s =
      callCustomErrorHandler a s ++ callCustomErrorHandler b s := by
  simp [callCustomErrorHandler]

/-- The dispatch is exactly: filter for the matching condition string, invoke
each matching handler with the firing signal, in list order. -/
theorem callCustomErrorHandler_eq_filterMap (hs : List HandlerReg) (s : String) :
    callCustomErrorHandler hs s =
      (hs.filter (fun p => decide (s = p.1))).map (fun p => Ev.invoke p.2 s) := by
  induction hs with
  | nil => rfl
  | cons p t ih =>
      rw [callCustomErrorHandler_cons, List.filter_cons, ih]
      by_cases h : s = p.1
      · simp [h]
      · simp [h]

/-- Every event the dispatch produces is an invocation, with the firing signal
as argument, of a handler registered under exactly that signal. -/
theorem mem_callCustomErrorHandler (hs : List HandlerReg) (s : String) (e : Ev)
    (he : e ∈ callCustomErrorHandler hs s) :
    ∃ hid, e = Ev.invoke hid s ∧ (s, hid) ∈ hs := by
  rw [callCustomErrorHandler_eq_filterMap] at he
  obtain ⟨p, hp, rfl⟩ := List.mem_map.mp he
  have hp' := List.mem_filter.mp hp
  refine ⟨p.2, rfl, ?_⟩
  have : s = p.1 := by simpa using hp'.2
  simpa [this] using hp'.1

theorem invoke_of_mem_callCustomErrorHandler (hs : List HandlerReg) (s : String) (e : Ev)
    (he : e ∈ callCustomErrorHandler hs s) : isInvoke e = true := by
  obtain ⟨hid, rfl, -⟩ := mem_callCustomErrorHandler hs s e he
  rfl

/-- Positional ordering along a concatenation: when the first class of events
only occurs in the left part and the second class only in the right part,
every event of the first class precedes every event of the second. -/
theorem ordered_split {P Q : Ev → Bool} (l r : List Ev)
    (hP : ∀ e ∈ r, P e = false) (hQ : ∀ e ∈ l, Q e = false)
    (i j : Nat) (hi : i < (l ++ r).length) (hj : j < (l ++ r).length)
    (hPi : P ((l ++ r)[i]) = true) (hQj : Q ((l ++ r)[j]) = true) : i < j := by
  have hil : i < l.length := by
    by_contra hle
    push_neg at hle
    have hlen : i - l.length < r.length := by
      simp only [List.length_append] at hi
      omega
    have : (l ++ r)[i] = r[i - l.length] := List.getElem_append_right hle
    rw [this] at hPi
    exact absurd hPi (by simp [hP _ (List.getElem_mem hlen)])
  have hjl : l.length ≤ j := by
    by_contra hlt
    push_neg at hlt
    have : (l ++ r)[j] = l[j] := List.getElem_append_left hlt
    rw [this] at hQj
    exact absurd hQj (by simp [hQ _ (List.getElem_mem hlt)])
  omega

end FunctionsFramework

namespace FunctionsFramework

theorem fire_uncaught (hs : List HandlerReg) (m : String) :
    fire registerListeners hs (ProcEvent.uncaughtException m) = uncaughtExceptionTrace hs m := by
  simp [fire, registerListeners, eventKey, runListener]

theorem fire_unhandled (hs : List HandlerReg) (m : String) :
    fire registerListeners hs (ProcEvent.unhandledRejection m) = unhandledRejectionTrace hs m := by
  simp [fire, registerListeners, eventKey, runListener]

theorem fire_exit (hs : List HandlerReg) (c : Int) :
    fire registerListeners hs (ProcEvent.exitEv c) = exitTrace hs c := by
  simp [fire, registerListeners, eventKey, runListener]

theorem fire_signal (hs : List HandlerReg) (name : String) :
    fire registerListeners hs (ProcEvent.signalEv name) =
      if name = "SIGINT" then signalTrace hs "SIGINT"
      else if name = "SIGTERM" then signalTrace hs "SIGTERM"
      else [] := by
  by_cases h1 : name = "SIGINT"
  · subst h1; simp [fire, registerListeners, eventKey, runListener]
  by_cases h2 : name = "SIGTERM"
  · subst h2; simp [fire, registerListeners, eventKey, runListener]
  rw [if_neg h1, if_neg h2]
  by_cases hu : name = "uncaughtException"
  · subst hu; simp [fire, registerListeners, eventKey, runListener]
  by_cases hr : name = "unhandledRejection"
  · subst hr; simp [fire, registerListeners, eventKey, runListener]
  by_cases he : name = "exit"
  · subst he; simp [fire, registerListeners, eventKey, runListener]
  · have hu' : ¬("uncaughtException" = name) := fun h => hu h.symm
    have hr' : ¬("unhandledRejection" = name) := fun h => hr h.symm
    have he' : ¬("exit" = name) := fun h => he h.symm
    have h1' : ¬("SIGINT" = name) := fun h => h1 h.symm
    have h2' : ¬("SIGTERM" = name) := fun h => h2 h.symm
    simp [fire, registerListeners, eventKey, runListener, hu', hr', he', h1', h2']

theorem dispatch_isLog_false (hs : List HandlerReg) (s : String) :
    ∀ e ∈ callCustomErrorHandler hs s, isLog e = false := by
  intro e he
  obtain ⟨hid, rfl, -⟩ := mem_callCustomErrorHandler hs s e he
  rfl

theorem dispatch_isAwait_false (hs : List HandlerReg) (s : String) :
    ∀ e ∈ callCustomErrorHandler hs s, isAwait e = false := by
  intro e he
  obtain ⟨hid, rfl, -⟩ := mem_callCustomErrorHandler hs s e he
  rfl

theorem dispatch_isFinalize_false (hs : List HandlerReg) (s : String) :
    ∀ e ∈ callCustomErrorHandler hs s, isFinalize e = false := by
  intro e he
  obtain ⟨hid, rfl, -⟩ := mem_callCustomErrorHandler hs s e he
  rfl

theorem dispatch_isSendCrash_false (hs : List HandlerReg) (s : String) :
    ∀ e ∈ callCustomErrorHandler hs s, isSendCrash e = false := by
  intro e he
  obtain ⟨hid, rfl, -⟩ := mem_callCustomErrorHandler hs s e he
  rfl

theorem invocationsOf_append (a b : List Ev) (hid : Nat) :
    invocationsOf (a ++ b) hid = invocationsOf a hid ++ invocationsOf b hid := by
  simp [invocationsOf, List.filter_append]

/-- Dispatch over registrations none of which carry handler `hid` produces no
invocation of `hid`. -/
theorem invocationsOf_dispatch_fresh (hs : List HandlerReg) (s : String) (hid : Nat)
    (hfresh : ∀ p ∈ hs, p.2 ≠ hid) :
    invocationsOf (callCustomErrorHandler hs s) hid = [] := by
  rw [invocationsOf, List.filter_eq_nil_iff]
  intro e he
  obtain ⟨hid', rfl, hmem⟩ := mem_callCustomErrorHandler hs s e he
  simpa using hfresh _ hmem

theorem crashEvents_append (a b : List Ev) :
    crashEvents (a ++ b) = crashEvents a ++ crashEvents b := by
  simp [crashEvents, List.filter_append]

theorem crashEvents_dispatch (hs : List HandlerReg) (s : String) :
    crashEvents (callCustomErrorHandler hs s) = [] := by
  rw [crashEvents, List.filter_eq_nil_iff]
  intro e he
  simp [dispatch_isSendCrash_false hs s e he]

theorem callbackCodes_append (a b : List Ev) :
    callbackCodes (a ++ b) = callbackCodes a ++ callbackCodes b := by
  simp [callbackCodes, List.filterMap_append]

theorem callbackCodes_dispatch (hs : List HandlerReg) (s : String) :
    callbackCodes (callCustomErrorHandler hs s) = [] := by
  rw [callbackCodes, List.filterMap_eq_nil_iff]
  intro e he
  obtain ⟨hid, rfl, -⟩ := mem_callCustomErrorHandler hs s e he
  rfl

theorem invocationsOf_cons_log (m : String) (t : List Ev) (hid : Nat) :
    invocationsOf (Ev.log m :: t) hid = invocationsOf t hid := rfl

theorem invocationsOf_crash_tail (hid : Nat) (msg : String) (rl : Bool) (cb : Option Nat)
    (si : Option Bool) :
    invocationsOf [Ev.awaitAll, Ev.sendCrash msg rl cb si] hid = [] := rfl

theorem invocationsOf_signal_tail (hid : Nat) :
    invocationsOf [Ev.awaitAll, Ev.serverClose, Ev.closeCallback, Ev.exitProc none] hid = [] := rfl

/-- Appending a registration for `C` via `on` and dispatching `C` invokes the
new handler exactly once when no earlier registration carries it. -/
theorem invocationsOf_dispatch_on (r : List HandlerReg) (C : String) (hid : Nat)
    (hfresh : ∀ p ∈ r, p.2 ≠ hid) :
    invocationsOf (callCustomErrorHandler («on» r C hid) C) hid = [Ev.invoke hid C] := by
  rw [«on», callCustomErrorHandler_append, invocationsOf_append,
      invocationsOf_dispatch_fresh r C hid hfresh]
  simp [callCustomErrorHandler, invocationsOf]

/-- C1 counterexample: the spec's name for the process-exit condition,
"processExit", is not the string the code dispatches (the code dispatches
"exit"), so a handler registered via on("processExit", h) is invoked zero
times — not exactly once — when the process-exit condition fires. -/
theorem c1_processExit_name_counterexample :
    ¬ (invocationsOf
        (fire registerListeners («on» [] "processExit" 0) (ProcEvent.exitEv 3)) 0).length = 1 := by
  decide

/-- C1 (amended): for every condition C in the set of strings the code
actually dispatches, namely uncaughtException, unhandledRejection, exit (the
process-exit condition), SIGINT and SIGTERM, registering a fresh handler via
on(C, h) and then triggering C exactly once invokes h exactly once, with the
condition name C as its argument. -/
theorem c1_registered_handler_invoked_once (r : List HandlerReg) (hid : Nat)
    (msg : String) (code : Int) (hfresh : ∀ p ∈ r, p.2 ≠ hid) :
    invocationsOf (fire registerListeners («on» r "uncaughtException" hid)
        (ProcEvent.uncaughtException msg)) hid = [Ev.invoke hid "uncaughtException"]
  ∧ invocationsOf (fire registerListeners («on» r "unhandledRejection" hid)
        (ProcEvent.unhandledRejection msg)) hid = [Ev.invoke hid "unhandledRejection"]
  ∧ invocationsOf (fire registerListeners («on» r "exit" hid)
        (ProcEvent.exitEv code)) hid = [Ev.invoke hid "exit"]
  ∧ invocationsOf (fire registerListeners («on» r "SIGINT" hid)
        (ProcEvent.signalEv "SIGINT")) hid = [Ev.invoke hid "SIGINT"]
  ∧ invocationsOf (fire registerListeners («on» r "SIGTERM" hid)
        (ProcEvent.signalEv "SIGTERM")) hid = [Ev.invoke hid "SIGTERM"] := by
  refine ⟨?_, ?_, ?_, ?_, ?_⟩
  · rw [fire_uncaught, uncaughtExceptionTrace, invocationsOf_append,
        invocationsOf_cons_log, invocationsOf_dispatch_on r _ hid hfresh,
        invocationsOf_crash_tail]
    simp
  · rw [fire_unhandled, unhandledRejectionTrace, invocationsOf_append,
        invocationsOf_cons_log, invocationsOf_dispatch_on r _ hid hfresh,
        invocationsOf_crash_tail]
    simp
  · rw [fire_exit, exitTrace, invocationsOf_append,
        invocationsOf_dispatch_on r _ hid hfresh, invocationsOf_crash_tail]
    simp
  · rw [fire_signal, if_pos rfl, signalTrace, invocationsOf_append,
        invocationsOf_cons_log, invocationsOf_dispatch_on r _ hid hfresh,
        invocationsOf_signal_tail]
    simp
  · rw [fire_signal, if_neg (by decide : ¬("SIGTERM" = "SIGINT")), if_pos rfl,
        signalTrace, invocationsOf_append, invocationsOf_cons_log,
        invocationsOf_dispatch_on r _ hid hfresh, invocationsOf_signal_tail]
    simp

theorem c1_registered_handler_invoked_once_witness :
    invocationsOf (fire registerListeners («on» [] "SIGINT" 0)
      (ProcEvent.signalEv "SIGINT")) 0 = [Ev.invoke 0 "SIGINT"] :=
  (c1_registered_handler_invoked_once [] 0 "boom" 0 (by simp)).2.2.2.1

/-- C2: dispatch is by exact string equality on the condition name; a handler
registered only for condition C is never invoked when a different condition D
fires, and the dispatch output is exactly the filter of the registration list
by string equality with D — non-matching entries contribute nothing. -/
theorem c2_no_cross_condition_dispatch (r : List HandlerReg) (hid : Nat) (C D : String)
    (hne : D ≠ C) (honly : ∀ p ∈ r, p.2 = hid → p.1 = C) :
    invocationsOf (callCustomErrorHandler r D) hid = []
  ∧ callCustomErrorHandler r D
      = (r.filter (fun p => decide (D = p.1))).map (fun p => Ev.invoke p.2 D) := by
  refine ⟨?_, callCustomErrorHandler_eq_filterMap r D⟩
  rw [invocationsOf, List.filter_eq_nil_iff]
  intro e he
  obtain ⟨hid', rfl, hmem⟩ := mem_callCustomErrorHandler r D e he
  have : hid' ≠ hid := fun h => hne (honly _ hmem (by simpa using h))
  simpa using this

theorem c2_no_cross_condition_dispatch_witness :
    invocationsOf (callCustomErrorHandler [("uncaughtException", 0)] "SIGTERM") 0 = [] :=
  (c2_no_cross_condition_dispatch [("uncaughtException", 0)] 0 "uncaughtException" "SIGTERM"
    (by decide) (by decide)).1

/-- Variant of `ordered_split` taking the decomposition as an equation. -/
theorem ordered_split_eq {P Q : Ev → Bool} (t l r : List Ev) (hteq : t = l ++ r)
    (hP : ∀ e ∈ r, P e = false) (hQ : ∀ e ∈ l, Q e = false)
    (i j : Nat) (hi : i < t.length) (hj : j < t.length)
    (hPi : P (t.get ⟨i, hi⟩) = true) (hQj : Q (t.get ⟨j, hj⟩) = true) : i < j := by
  subst hteq
  exact ordered_split l r hP hQ i j hi hj hPi hQj

/-- Ordering skeleton shared by the five listener bodies: a possible pre-action
part, then the dispatched handler invocations, then the await point, then the
finalize part. -/
theorem chain_order (hs : List HandlerReg) (s : String) (pre fin t : List Ev)
    (htEq : t = pre ++ callCustomErrorHandler hs s ++ ([Ev.awaitAll] ++ fin))
    (hpre : ∀ e ∈ pre, isInvoke e = false ∧ isAwait e = false ∧ isFinalize e = false)
    (hfin : ∀ e ∈ fin, isLog e = false ∧ isInvoke e = false ∧ isAwait e = false)
    (i j : Nat) (hi : i < t.length) (hj : j < t.length) :
    (isLog (t.get ⟨i, hi⟩) = true → isInvoke (t.get ⟨j, hj⟩) = true → i < j)
  ∧ (isInvoke (t.get ⟨i, hi⟩) = true → isAwait (t.get ⟨j, hj⟩) = true → i < j)
  ∧ (isAwait (t.get ⟨i, hi⟩) = true → isFinalize (t.get ⟨j, hj⟩) = true → i < j)
  ∧ (isInvoke (t.get ⟨i, hi⟩) = true → isFinalize (t.get ⟨j, hj⟩) = true → i < j) := by
  refine ⟨?_, ?_, ?_, ?_⟩
  · intro hPi hQj
    refine ordered_split_eq t pre (callCustomErrorHandler hs s ++ ([Ev.awaitAll] ++ fin))
      (by rw [htEq, List.append_assoc]) ?_ ?_ i j hi hj hPi hQj
    · intro e he
      rcases List.mem_append.mp he with h1 | h2
      · exact dispatch_isLog_false hs s e h1
      · rcases List.mem_cons.mp h2 with rfl | h3
        · rfl
        · exact (hfin e h3).1
    · intro e he
      exact (hpre e he).1
  · intro hPi hQj
    refine ordered_split_eq t (pre ++ callCustomErrorHandler hs s) ([Ev.awaitAll] ++ fin)
      htEq ?_ ?_ i j hi hj hPi hQj
    · intro e he
      rcases List.mem_cons.mp he with rfl | h3
      · rfl
      · exact (hfin e h3).2.1
    · intro e he
      rcases List.mem_append.mp he with h1 | h2
      · exact (hpre e h1).2.1
      · exact dispatch_isAwait_false hs s e h2
  · intro hPi hQj
    refine ordered_split_eq t ((pre ++ callCustomErrorHandler hs s) ++ [Ev.awaitAll]) fin
      (by rw [htEq]; simp [List.append_assoc]) ?_ ?_ i j hi hj hPi hQj
    · intro e he
      exact (hfin e he).2.2
    · intro e he
      rcases List.mem_append.mp he with h1 | h2
      · rcases List.mem_append.mp h1 with h3 | h4
        · exact (hpre e h3).2.2
        · exact dispatch_isFinalize_false hs s e h4
      · rcases List.mem_cons.mp h2 with rfl | h5
        · rfl
        · simp at h5
  · intro hPi hQj
    refine ordered_split_eq t (pre ++ callCustomErrorHandler hs s) ([Ev.awaitAll] ++ fin)
      htEq ?_ ?_ i j hi hj hPi hQj
    · intro e he
      rcases List.mem_cons.mp he with rfl | h3
      · rfl
      · exact (hfin e h3).2.1
    · intro e he
      rcases List.mem_append.mp he with h1 | h2
      · exact (hpre e h1).2.2
      · exact dispatch_isFinalize_false hs s e h2

/-- C3: for a single occurrence of any one condition, the reaction chain is
strictly ordered: any pre-action log event precedes every custom-handler
invocation, every invocation precedes the point where all dispatched
awaitables have settled, and that await point precedes every finalize-action
event, so the finalize action runs only after every matching handler's
awaitable has settled. -/
theorem c3_reaction_chain_order (hs : List HandlerReg) (msg : String) (code : Int)
    (t : List Ev)
    (ht : t ∈ [uncaughtExceptionTrace hs msg, unhandledRejectionTrace hs msg,
               exitTrace hs code, signalTrace hs "SIGINT", signalTrace hs "SIGTERM"])
    (i j : Nat) (hi : i < t.length) (hj : j < t.length) :
    (isLog (t.get ⟨i, hi⟩) = true → isInvoke (t.get ⟨j, hj⟩) = true → i < j)
  ∧ (isInvoke (t.get ⟨i, hi⟩) = true → isAwait (t.get ⟨j, hj⟩) = true → i < j)
  ∧ (isAwait (t.get ⟨i, hi⟩) = true → isFinalize (t.get ⟨j, hj⟩) = true → i < j)
  ∧ (isInvoke (t.get ⟨i, hi⟩) = true → isFinalize (t.get ⟨j, hj⟩) = true → i < j) := by
  simp only [List.mem_cons, List.not_mem_nil, or_false] at ht
  rcases ht with rfl | rfl | rfl | rfl | rfl
  · exact chain_order hs "uncaughtException" [Ev.log "Uncaught exception"]
      [Ev.sendCrash msg true (some killInstanceCode) none] _
      (by simp [uncaughtExceptionTrace])
      (by intro e he; simp only [List.mem_singleton] at he; subst he; exact ⟨rfl, rfl, rfl⟩)
      (by intro e he; simp only [List.mem_singleton] at he; subst he; exact ⟨rfl, rfl, rfl⟩)
      i j hi hj
  · exact chain_order hs "unhandledRejection" [Ev.log "Unhandled rejection"]
      [Ev.sendCrash msg true (some killInstanceCode) none] _
      (by simp [unhandledRejectionTrace])
      (by intro e he; simp only [List.mem_singleton] at he; subst he; exact ⟨rfl, rfl, rfl⟩)
      (by intro e he; simp only [List.mem_singleton] at he; subst he; exact ⟨rfl, rfl, rfl⟩)
      i j hi hj
  · exact chain_order hs "exit" []
      [Ev.sendCrash ("Process exited with code " ++ toString code) true none
        (some (decide (code = 0)))] _
      (by simp [exitTrace])
      (by intro e he; simp at he)
      (by intro e he; simp only [List.mem_singleton] at he; subst he; exact ⟨rfl, rfl, rfl⟩)
      i j hi hj
  · exact chain_order hs "SIGINT" [Ev.log ("Received " ++ "SIGINT")]
      [Ev.serverClose, Ev.closeCallback, Ev.exitProc none] _
      (by simp [signalTrace])
      (by intro e he; simp only [List.mem_singleton] at he; subst he; exact ⟨rfl, rfl, rfl⟩)
      (by intro e he
          rcases List.mem_cons.mp he with rfl | he'
          · exact ⟨rfl, rfl, rfl⟩
          rcases List.mem_cons.mp he' with rfl | he''
          · exact ⟨rfl, rfl, rfl⟩
          rcases List.mem_cons.mp he'' with rfl | he'''
          · exact ⟨rfl, rfl, rfl⟩
          · simp at he''')
      i j hi hj
  · exact chain_order hs "SIGTERM" [Ev.log ("Received " ++ "SIGTERM")]
      [Ev.serverClose, Ev.closeCallback, Ev.exitProc none] _
      (by simp [signalTrace])
      (by intro e he; simp only [List.mem_singleton] at he; subst he; exact ⟨rfl, rfl, rfl⟩)
      (by intro e he
          rcases List.mem_cons.mp he with rfl | he'
          · exact ⟨rfl, rfl, rfl⟩
          rcases List.mem_cons.mp he' with rfl | he''
          · exact ⟨rfl, rfl, rfl⟩
          rcases List.mem_cons.mp he'' with rfl | he'''
          · exact ⟨rfl, rfl, rfl⟩
          · simp at he''')
      i j hi hj

theorem c3_reaction_chain_order_witness :
    uncaughtExceptionTrace [("uncaughtException", 5)] "boom" ∈
      [uncaughtExceptionTrace [("uncaughtException", 5)] "boom",
       unhandledRejectionTrace [("uncaughtException", 5)] "boom",
       exitTrace [("uncaughtException", 5)] 0,
       signalTrace [("uncaughtException", 5)] "SIGINT",
       signalTrace [("uncaughtException", 5)] "SIGTERM"] ∧ 1 < 3 := by
  refine ⟨List.mem_cons_self _ _, ?_⟩
  exact (c3_reaction_chain_order [("uncaughtException", 5)] "boom" 0 _
    (List.mem_cons_self _ _) 1 3 (by decide) (by decide)).2.2.2 (by decide) (by decide)

theorem crashEvents_cons_log (m : String) (t : List Ev) :
    crashEvents (Ev.log m :: t) = crashEvents t := rfl

theorem crashEvents_crash_tail (msg : String) (rl : Bool) (cb : Option Nat) (si : Option Bool) :
    crashEvents [Ev.awaitAll, Ev.sendCrash msg rl cb si] = [Ev.sendCrash msg rl cb si] := rfl

theorem crashEvents_signal_tail :
    crashEvents [Ev.awaitAll, Ev.serverClose, Ev.closeCallback, Ev.exitProc none] = [] := rfl

theorem callbackCodes_cons_log (m : String) (t : List Ev) :
    callbackCodes (Ev.log m :: t) = callbackCodes t := rfl

theorem callbackCodes_crash_tail (msg : String) (rl : Bool) (cb : Option Nat) (si : Option Bool) :
    callbackCodes [Ev.awaitAll, Ev.sendCrash msg rl cb si] = [cb] := rfl

/-- C4: one register call attaches exactly one listener per recognized
condition, and firing uncaughtException produces exactly one crash-response
call, carrying the thrown error message, the latest response handle and a
termination callback bound to the reserved exit code — which is nonzero and
absent from the Node.js runtime's own exit-code table. -/
theorem c4_register_and_crash_path (hs : List HandlerReg) (msg : String) :
    (∀ c ∈ recognizedConditions,
        (registerListeners.filter (fun p => decide (p.1 = c))).length = 1)
  ∧ crashEvents (fire registerListeners hs (ProcEvent.uncaughtException msg))
      = [Ev.sendCrash msg true (some killInstanceCode) none]
  ∧ killInstanceCode ≠ 0
  ∧ killInstanceCode ∉ nodeReservedExitCodes := by
  refine ⟨?_, ?_, by decide, by decide⟩
  · intro c hc
    fin_cases hc <;> decide
  · rw [fire_uncaught, uncaughtExceptionTrace, crashEvents_append, crashEvents_cons_log,
        crashEvents_dispatch, crashEvents_crash_tail]
    simp

theorem c4_register_and_crash_path_witness :
    "exit" ∈ recognizedConditions ∧
      (registerListeners.filter (fun p => decide (p.1 = "exit"))).length = 1 :=
  ⟨by decide, (c4_register_and_crash_path [] "boom").1 "exit" (by decide)⟩

/-- C5: firing the process-exit condition with code 0 calls the crash-response
sender with silent set to true; firing it with any nonzero code calls the
sender with silent set to false and a synthesized error whose message contains
that exit code. -/
theorem c5_exit_code_silent (hs : List HandlerReg) (code : Int) :
    (code = 0 → crashEvents (fire registerListeners hs (ProcEvent.exitEv code))
        = [Ev.sendCrash ("Process exited with code " ++ toString code) true none (some true)])
  ∧ (code ≠ 0 → ∃ pre, crashEvents (fire registerListeners hs (ProcEvent.exitEv code))
        = [Ev.sendCrash (pre ++ toString code) true none (some false)]) := by
  have hbase : crashEvents (fire registerListeners hs (ProcEvent.exitEv code))
      = [Ev.sendCrash ("Process exited with code " ++ toString code) true none
          (some (decide (code = 0)))] := by
    rw [fire_exit, exitTrace, crashEvents_append, crashEvents_dispatch, crashEvents_crash_tail]
    simp
  constructor
  · intro h
    rw [hbase]
    simp [h]
  · intro h
    exact ⟨"Process exited with code ", by rw [hbase]; simp [h]⟩

theorem c5_exit_code_silent_witness :
    crashEvents (fire registerListeners [] (ProcEvent.exitEv 0))
        = [Ev.sendCrash ("Process exited with code " ++ toString (0 : Int)) true none (some true)]
  ∧ ∃ pre, crashEvents (fire registerListeners [] (ProcEvent.exitEv 7))
        = [Ev.sendCrash (pre ++ toString (7 : Int)) true none (some false)] :=
  ⟨(c5_exit_code_silent [] 0).1 rfl, (c5_exit_code_silent [] 7).2 (by decide)⟩

/-- C9: on both the uncaughtException and unhandledRejection paths the single
crash-response call carries a termination callback bound to exit code 16, and
no other callback code occurs. -/
theorem c9_reserved_code_sixteen (hs : List HandlerReg) (msg : String) :
    callbackCodes (fire registerListeners hs (ProcEvent.uncaughtException msg))
        = [some killInstanceCode]
  ∧ callbackCodes (fire registerListeners hs (ProcEvent.unhandledRejection msg))
        = [some killInstanceCode]
  ∧ killInstanceCode = 16 := by
  refine ⟨?_, ?_, rfl⟩
  · rw [fire_uncaught, uncaughtExceptionTrace, callbackCodes_append, callbackCodes_cons_log,
        callbackCodes_dispatch, callbackCodes_crash_tail]
    simp
  · rw [fire_unhandled, unhandledRejectionTrace, callbackCodes_append, callbackCodes_cons_log,
        callbackCodes_dispatch, callbackCodes_crash_tail]
    simp

/-- C6: firing SIGINT or SIGTERM runs the signal listener, which calls
server.close; the process-exit call occurs only after the close-completion
callback, which itself follows the close call; the exit call passes no
explicit exit code; and the crash-response sender is never invoked on this
path. -/
theorem c6_signal_close_then_exit (hs : List HandlerReg) (s : String)
    (hsig : s = "SIGINT" ∨ s = "SIGTERM") :
    fire registerListeners hs (ProcEvent.signalEv s) = signalTrace hs s
  ∧ crashEvents (signalTrace hs s) = []
  ∧ Ev.serverClose ∈ signalTrace hs s
  ∧ (∀ c, Ev.exitProc c ∈ signalTrace hs s → c = none)
  ∧ (∀ i j (hi : i < (signalTrace hs s).length) (hj : j < (signalTrace hs s).length),
      isServerClose ((signalTrace hs s).get ⟨i, hi⟩) = true →
      isCloseCb ((signalTrace hs s).get ⟨j, hj⟩) = true → i < j)
  ∧ (∀ i j (hi : i < (signalTrace hs s).length) (hj : j < (signalTrace hs s).length),
      isCloseCb ((signalTrace hs s).get ⟨i, hi⟩) = true →
      isExitP ((signalTrace hs s).get ⟨j, hj⟩) = true → i < j) := by
  refine ⟨?_, ?_, ?_, ?_, ?_, ?_⟩
  · rcases hsig with rfl | rfl
    · rw [fire_signal]
      simp
    · rw [fire_signal]
      simp
  · rw [signalTrace, crashEvents_append, crashEvents_cons_log, crashEvents_dispatch,
        crashEvents_signal_tail]
    rfl
  · rw [signalTrace]
    simp
  · intro c hc
    rw [signalTrace] at hc
    rcases List.mem_append.mp hc with h1 | h2
    · rcases List.mem_cons.mp h1 with h | h
      · exact absurd h (by simp)
      · have := invoke_of_mem_callCustomErrorHandler hs s _ h
        simp [isInvoke] at this
    · simpa using h2
  · intro i j hi hj hPi hQj
    refine ordered_split_eq (signalTrace hs s)
      ((Ev.log ("Received " ++ s) :: callCustomErrorHandler hs s) ++ [Ev.awaitAll, Ev.serverClose])
      [Ev.closeCallback, Ev.exitProc none]
      (by rw [signalTrace]; simp) ?_ ?_ i j hi hj hPi hQj
    · intro e he
      rcases List.mem_cons.mp he with rfl | he'
      · rfl
      · rcases List.mem_cons.mp he' with rfl | he''
        · rfl
        · simp at he''
    · intro e he
      rcases List.mem_append.mp he with h1 | h2
      · rcases List.mem_cons.mp h1 with rfl | h
        · rfl
        · obtain ⟨hid, rfl, -⟩ := mem_callCustomErrorHandler hs s e h
          rfl
      · rcases List.mem_cons.mp h2 with rfl | h
        · rfl
        · rcases List.mem_cons.mp h with rfl | h'
          · rfl
          · simp at h'
  · intro i j hi hj hPi hQj
    refine ordered_split_eq (signalTrace hs s)
      ((Ev.log ("Received " ++ s) :: callCustomErrorHandler hs s)
        ++ [Ev.awaitAll, Ev.serverClose, Ev.closeCallback])
      [Ev.exitProc none]
      (by rw [signalTrace]; simp) ?_ ?_ i j hi hj hPi hQj
    · intro e he
      rcases List.mem_cons.mp he with rfl | he'
      · rfl
      · simp at he'
    · intro e he
      rcases List.mem_append.mp he with h1 | h2
      · rcases List.mem_cons.mp h1 with rfl | h
        · rfl
        · obtain ⟨hid, rfl, -⟩ := mem_callCustomErrorHandler hs s e h
          rfl
      · rcases List.mem_cons.mp h2 with rfl | h
        · rfl
        · rcases List.mem_cons.mp h with rfl | h'
          · rfl
          · rcases List.mem_cons.mp h' with rfl | h''
            · rfl
            · simp at h''

theorem c6_signal_close_then_exit_witness :
    crashEvents (signalTrace [] "SIGINT") = []
  ∧ Ev.serverClose ∈ signalTrace [] "SIGINT"
  ∧ 2 < 3 :=
  ⟨(c6_signal_close_then_exit [] "SIGINT" (Or.inl rfl)).2.1,
   (c6_signal_close_then_exit [] "SIGINT" (Or.inl rfl)).2.2.1,
   (c6_signal_close_then_exit [] "SIGINT" (Or.inl rfl)).2.2.2.2.1 2 3
     (by decide) (by decide) (by decide) (by decide)⟩

/-- C7: building the registration list through successive on calls yields
exactly the calls in order — appended, never removed, never deduplicated —
and dispatching a condition invokes precisely the matching registrations
(duplicates included), in registration order. -/
theorem c7_append_only_in_order (calls : List HandlerReg) (C : String) :
    (calls.foldl (fun r p => «on» r p.1 p.2) []) = calls
  ∧ callCustomErrorHandler (calls.foldl (fun r p => «on» r p.1 p.2) []) C
      = (calls.filter (fun p => decide (C = p.1))).map (fun p => Ev.invoke p.2 C) := by
  have hfold : ∀ (cs acc : List HandlerReg),
      cs.foldl (fun r p => «on» r p.1 p.2) acc = acc ++ cs := by
    intro cs
    induction cs with
    | nil => intro acc; simp
    | cons p t ih =>
        intro acc
        rw [List.foldl_cons, ih]
        simp [«on»]
  constructor
  · simpa using hfold calls []
  · rw [hfold calls []]
    simpa using callCustomErrorHandler_eq_filterMap calls C

/-- Dispatching a signal different from the condition a freshly appended
registration was made under never invokes the new handler. -/
theorem invocationsOf_dispatch_on_ne (r : List HandlerReg) (s : String) (hid : Nat)
    (s' : String) (hfresh : ∀ p ∈ r, p.2 ≠ hid) (hne : s' ≠ s) :
    invocationsOf (callCustomErrorHandler («on» r s hid) s') hid = [] := by
  rw [«on», callCustomErrorHandler_append, invocationsOf_append,
      invocationsOf_dispatch_fresh r s' hid hfresh]
  simp [callCustomErrorHandler, invocationsOf, hne]

/-- C8: on performs no validation of the condition string and never fails —
any string is appended as-is — and a handler registered under a string outside
the five recognized conditions is never invoked by any firing process event. -/
theorem c8_unknown_condition_inert (r : List HandlerReg) (s : String) (hid : Nat)
    (hunk : s ∉ recognizedConditions) (hfresh : ∀ p ∈ r, p.2 ≠ hid) :
    «on» r s hid = r ++ [(s, hid)]
  ∧ ∀ e : ProcEvent, invocationsOf (fire registerListeners («on» r s hid) e) hid = [] := by
  have h1 : ("uncaughtException" : String) ≠ s :=
    fun h => hunk (h ▸ (by decide : "uncaughtException" ∈ recognizedConditions))
  have h2 : ("unhandledRejection" : String) ≠ s :=
    fun h => hunk (h ▸ (by decide : "unhandledRejection" ∈ recognizedConditions))
  have h3 : ("exit" : String) ≠ s :=
    fun h => hunk (h ▸ (by decide : "exit" ∈ recognizedConditions))
  have h4 : ("SIGINT" : String) ≠ s :=
    fun h => hunk (h ▸ (by decide : "SIGINT" ∈ recognizedConditions))
  have h5 : ("SIGTERM" : String) ≠ s :=
    fun h => hunk (h ▸ (by decide : "SIGTERM" ∈ recognizedConditions))
  refine ⟨rfl, ?_⟩
  intro e
  cases e with
  | uncaughtException m =>
      rw [fire_uncaught, uncaughtExceptionTrace, invocationsOf_append, invocationsOf_cons_log,
          invocationsOf_dispatch_on_ne r s hid _ hfresh h1, invocationsOf_crash_tail]
      rfl
  | unhandledRejection m =>
      rw [fire_unhandled, unhandledRejectionTrace, invocationsOf_append, invocationsOf_cons_log,
          invocationsOf_dispatch_on_ne r s hid _ hfresh h2, invocationsOf_crash_tail]
      rfl
  | exitEv c =>
      rw [fire_exit, exitTrace, invocationsOf_append,
          invocationsOf_dispatch_on_ne r s hid _ hfresh h3, invocationsOf_crash_tail]
      rfl
  | signalEv name =>
      rw [fire_signal]
      by_cases hn1 : name = "SIGINT"
      · subst hn1
        rw [if_pos rfl, signalTrace, invocationsOf_append, invocationsOf_cons_log,
            invocationsOf_dispatch_on_ne r s hid _ hfresh h4, invocationsOf_signal_tail]
        rfl
      by_cases hn2 : name = "SIGTERM"
      · subst hn2
        rw [if_neg (by decide : ¬("SIGTERM" = "SIGINT")), if_pos rfl, signalTrace,
            invocationsOf_append, invocationsOf_cons_log,
            invocationsOf_dispatch_on_ne r s hid _ hfresh h5, invocationsOf_signal_tail]
        rfl
      · rw [if_neg hn1, if_neg hn2]
        rfl

theorem c8_unknown_condition_inert_witness :
    «on» [] "sigterm" 0 = [] ++ [("sigterm", 0)]
  ∧ invocationsOf
      (fire registerListeners («on» [] "sigterm" 0) (ProcEvent.signalEv "SIGTERM")) 0 = [] :=
  ⟨(c8_unknown_condition_inert [] "sigterm" 0 (by decide) (by simp)).1,
   (c8_unknown_condition_inert [] "sigterm" 0 (by decide) (by simp)).2
     (ProcEvent.signalEv "SIGTERM")⟩

theorem fire_append (a b : List (String × ListenerK)) (hs : List HandlerReg) (e : ProcEvent) :
    fire (a ++ b) hs e = fire a hs e ++ fire b hs e := by
  simp [fire, List.filter_append]

theorem flatten_replicate_comm {α : Type} (n : Nat) (x : List α) :
    (List.replicate n x).flatten ++ x = x ++ (List.replicate n x).flatten := by
  induction n with
  | zero => simp
  | succ n ih =>
      rw [List.replicate_succ, List.flatten_cons, List.append_assoc, ih]

theorem invocationsOf_flatten_replicate (n : Nat) (x : List Ev) (hid : Nat) :
    (invocationsOf ((List.replicate n x).flatten) hid).length
      = n * (invocationsOf x hid).length := by
  induction n with
  | zero => simp [invocationsOf]
  | succ n ih =>
      rw [List.replicate_succ, List.flatten_cons, invocationsOf_append, List.length_append, ih]
      ring

/-- C10: register is unguarded — each call appends a fresh set of five
listeners with no flag preventing double attachment — so after n calls every
process event runs its reaction chain n times, and each matching custom
handler is invoked n times per event occurrence. -/
theorem c10_register_unguarded (n : Nat) (hs : List HandlerReg) (e : ProcEvent) (hid : Nat) :
    register (registerN n) = registerN n ++ registerListeners
  ∧ fire (registerN n) hs e = (List.replicate n (fire registerListeners hs e)).flatten
  ∧ (invocationsOf (fire (registerN n) hs e) hid).length
      = n * (invocationsOf (fire registerListeners hs e) hid).length := by
  have hfire : fire (registerN n) hs e
      = (List.replicate n (fire registerListeners hs e)).flatten := by
    induction n with
    | zero => rfl
    | succ n ih =>
        simp only [registerN, register]
        rw [fire_append, ih, List.replicate_succ, List.flatten_cons]
        exact flatten_replicate_comm n _
  exact ⟨rfl, hfire, by rw [hfire, invocationsOf_flatten_replicate]⟩

end FunctionsFramework
